import Mathlib

/-!
Verification development for the sequential cart-operation queue and the
optimistic cart reconciliation layer of the nekuda MCP UI demo.

Two shallow embeddings are developed:

* `AsyncQueue` — a labelled transition system for the `AsyncQueue` class
  (`src/utils/asyncQueue.ts`).  The JavaScript runtime is a single-threaded
  event loop; the only suspension point inside the drain loop is
  `await operation.operation()`, so the machine's atomic steps are exactly the
  synchronous chunks between suspension points:
  - `enqueue`: the promise executor pushes the operation and, when the queue is
    idle, synchronously enters `processQueue`, which shifts the head and calls
    its work function (an async function body runs synchronously up to its
    first `await`, so the head's work *begins* before `enqueue` returns);
  - `resolve`: the active operation's work settles; the drain-loop continuation
    routes the result to the operation's promise, clears the active marker and
    either starts the next queued operation or ends the drain;
  - `clear`: rejects every still-queued operation with the cancellation error
    and empties the queue, leaving the active operation untouched.
  Work functions are abstracted to the outcome their promise settles with
  (`Except String α`).  The `stamp` field is the monotonic enqueue counter
  (mirroring the `timestamp: Date.now()` diagnostic field); it identifies the
  position of the `enqueue` call in wall-clock order.  The instrumentation
  `trace` records the start and settlement of each work function, as the spec's
  "instrument work functions to record start/end" suggests.

* `CartStore` — the cart store (`src/frontend/src/stores/cart.ts`): pure
  functions for the optimistic list mutations, the `syncCart` resync, and the
  per-operation mutation pipeline, plus a system-level machine that runs the
  four mutating actions through the queue with their `pendingOperations`
  bookkeeping and final resync.
-/

namespace AsyncQueue

/-- Instrumentation events: `start s id` marks the moment the drain loop calls
the work function of the operation with enqueue stamp `s`; `finish s id` marks
the moment that work's promise settles (and the drain routes its outcome). -/
inductive QEvent
  | start (stamp : Nat) (id : String)
  | finish (stamp : Nat) (id : String)
deriving DecidableEq, Repr

/-- A queued operation (`QueuedOperation` in the source): its identifier, the
outcome its work function eventually settles with, and its enqueue stamp (the
monotonic counter standing in for the `timestamp: Date.now()` field). -/
structure QOp (α : Type) where
  id : String
  result : Except String α
  stamp : Nat

/-- State of the `AsyncQueue` instance together with the instrumentation
(`trace`) and the settlements delivered to callers (`settled`, in delivery
order).  `active` holds the operation whose work is currently being awaited
(its `id` is the source's `activeOperation` field). -/
structure QueueState (α : Type) where
  queue : List (QOp α)
  isProcessing : Bool
  active : Option (QOp α)
  trace : List QEvent
  settled : List (String × Except String α)
  nextStamp : Nat

variable {α : Type}

/-- A fresh `AsyncQueue` instance. -/
def initQ : QueueState α :=
  { queue := [], isProcessing := false, active := none, trace := [], settled := [],
    nextStamp := 0 }

/-- The message of the error with which `clear()` rejects pending operations. -/
def cancelMsg : String := "Operation cancelled - queue cleared"

/-- One iteration boundary of the drain loop in `processQueue`: if the queue is
non-empty, shift the head, mark it active and call its work function (recorded
as a `start` event); otherwise the `while` loop exits and `isProcessing` is
reset. -/
def startNext (s : QueueState α) : QueueState α :=
  match s.queue with
  | [] => { s with isProcessing := false, active := none }
  | op :: rest =>
      { s with
        queue := rest
        active := some op
        trace := s.trace ++ [QEvent.start op.stamp op.id] }

/-- The synchronous part of `enqueue(operation, id)`: the promise executor
pushes the operation onto the queue and, if no drain loop is running, calls
`processQueue`, which (synchronously, up to the first `await`) sets
`isProcessing`, shifts the head and begins its work. -/
def enqueueStep (s : QueueState α) (id : String) (result : Except String α) :
    QueueState α :=
  if s.isProcessing then
    { s with
      queue := s.queue ++ [{ id := id, result := result, stamp := s.nextStamp }]
      nextStamp := s.nextStamp + 1 }
  else
    startNext
      { s with
        queue := s.queue ++ [{ id := id, result := result, stamp := s.nextStamp }]
        nextStamp := s.nextStamp + 1
        isProcessing := true }

/-- The drain-loop continuation that runs when the active operation's work
settles: `try`/`catch` routes the operation's own outcome to its promise
(`resolve(result)` or `reject(error)`), the `finally` clears `activeOperation`,
and the loop either starts the next queued operation or terminates. -/
def resolveStep (s : QueueState α) : QueueState α :=
  match s.active with
  | none => s
  | some op =>
      startNext
        { s with
          active := none
          trace := s.trace ++ [QEvent.finish op.stamp op.id]
          settled := s.settled ++ [(op.id, op.result)] }

/-- `clear()`: reject every still-queued operation with the cancellation error
and empty the queue.  The active operation and the processing flag are not
touched. -/
def clearStep (s : QueueState α) : QueueState α :=
  { s with
    queue := []
    settled := s.settled ++ s.queue.map (fun op => (op.id, Except.error cancelMsg)) }

/-- The external stimuli of the queue: an `enqueue` call (with the outcome the
enqueued work will settle with), the settlement of the active operation's work,
and a `clear()` call. -/
inductive QAction (α : Type)
  | enqueue (id : String) (result : Except String α)
  | resolve
  | clear

/-- Step function of the queue machine. -/
def stepQ (s : QueueState α) : QAction α → QueueState α
  | QAction.enqueue id r => enqueueStep s id r
  | QAction.resolve => resolveStep s
  | QAction.clear => clearStep s

/-- Run the machine on a list of stimuli from a fresh queue. -/
def runQ (as : List (QAction α)) : QueueState α :=
  as.foldl stepQ initQ

/-- The trace fragment of a list of completed operations: each contributes its
start event immediately followed by its finish event. -/
def pairedTrace : List (Nat × String) → List QEvent
  | [] => []
  | (st, id) :: rest => QEvent.start st id :: QEvent.finish st id :: pairedTrace rest

/-- The trace fragment contributed by the operation currently executing: its
start event, not yet matched by a finish. -/
def activeEvts : Option (QOp α) → List QEvent
  | none => []
  | some op => [QEvent.start op.stamp op.id]

/-- The stamp of the operation currently executing, as a (zero- or
one-element) list. -/
def activeStamps : Option (QOp α) → List Nat
  | none => []
  | some op => [op.stamp]

/-- Queue machine invariant: the trace is a sequence of immediately matched
start/finish pairs (the completed operations, in execution order) followed by
the start of the operation currently executing, if any; the stamps of
completed, active and queued operations are strictly increasing in that order
and below the stamp counter; the processing flag matches the presence of an
active operation; and an idle queue is empty. -/
def QInv (s : QueueState α) : Prop :=
  ∃ done : List (Nat × String),
    s.trace = pairedTrace done ++ activeEvts s.active ∧
    List.Pairwise (· < ·)
      (done.map Prod.fst ++ activeStamps s.active ++ s.queue.map QOp.stamp) ∧
    (∀ st ∈ done.map Prod.fst ++ activeStamps s.active ++ s.queue.map QOp.stamp,
      st < s.nextStamp) ∧
    s.active.isSome = s.isProcessing ∧
    (s.isProcessing = false → s.queue = [])

lemma pairedTrace_append (d1 d2 : List (Nat × String)) :
    pairedTrace (d1 ++ d2) = pairedTrace d1 ++ pairedTrace d2 := by
  induction d1 with
  | nil => rfl
  | cons p rest ih => cases p; simp [pairedTrace, ih]

lemma enqueueStep_busy (s : QueueState α) (id : String) (r : Except String α)
    (hP : s.isProcessing = true) :
    enqueueStep s id r
      = { s with
          queue := s.queue ++ [{ id := id, result := r, stamp := s.nextStamp }]
          nextStamp := s.nextStamp + 1 } := by
  simp [enqueueStep, hP]

lemma enqueueStep_idle (s : QueueState α) (id : String) (r : Except String α)
    (hP : s.isProcessing = false) (hQ : s.queue = []) :
    enqueueStep s id r
      = { s with
          queue := []
          isProcessing := true
          active := some { id := id, result := r, stamp := s.nextStamp }
          trace := s.trace ++ [QEvent.start s.nextStamp id]
          nextStamp := s.nextStamp + 1 } := by
  simp [enqueueStep, hP, hQ, startNext]

lemma resolveStep_active (s : QueueState α) (op : QOp α) (hA : s.active = some op) :
    resolveStep s
      = startNext
          { s with
            active := none
            trace := s.trace ++ [QEvent.finish op.stamp op.id]
            settled := s.settled ++ [(op.id, op.result)] } := by
  simp [resolveStep, hA]

lemma pairwise_lt_append_singleton {l : List Nat} {n : Nat}
    (h : List.Pairwise (· < ·) l) (hlt : ∀ x ∈ l, x < n) :
    List.Pairwise (· < ·) (l ++ [n]) := by
  rw [List.pairwise_append]
  refine ⟨h, List.pairwise_singleton _ _, ?_⟩
  intro x hx y hy
  simp only [List.mem_singleton] at hy
  subst hy
  exact hlt x hx

lemma qinv_initQ : QInv (initQ : QueueState α) := by
  refine ⟨[], ?_, ?_, ?_, ?_, ?_⟩ <;>
    simp [initQ, pairedTrace, activeEvts, activeStamps]

lemma qinv_enqueueStep (s : QueueState α) (id : String) (r : Except String α)
    (h : QInv s) : QInv (enqueueStep s id r) := by
  obtain ⟨done, hsh, hpw, hlt, hflag, hidle⟩ := h
  cases hP : s.isProcessing with
  | true =>
    rw [enqueueStep_busy s id r hP]
    refine ⟨done, hsh, ?_, ?_, hflag, by simp [hP]⟩
    · simp only [List.map_append, List.map_cons, List.map_nil, ← List.append_assoc]
      exact pairwise_lt_append_singleton (by simpa [← List.append_assoc] using hpw)
        (fun x hx => hlt x (by simpa [← List.append_assoc] using hx))
    · intro st hst
      simp only [List.map_append, List.map_cons, List.map_nil, ← List.append_assoc,
        List.mem_append, List.mem_singleton] at hst
      rcases hst with hst | rfl
      · exact Nat.lt_succ_of_lt (hlt st (by simpa [← List.append_assoc] using hst))
      · exact Nat.lt_succ_self _
  | false =>
    have hA : s.active = none := by
      cases hA : s.active with
      | none => rfl
      | some op => rw [hA] at hflag; rw [hP] at hflag; simp at hflag
    have hQ : s.queue = [] := hidle hP
    rw [enqueueStep_idle s id r hP hQ]
    have hbase : done.map Prod.fst ++ activeStamps s.active ++ s.queue.map QOp.stamp
        = done.map Prod.fst := by simp [hA, hQ, activeStamps]
    rw [hbase] at hpw hlt
    refine ⟨done, ?_, ?_, ?_, rfl, by simp⟩
    · simpa [activeEvts, hA] using hsh
    · simpa [activeStamps] using pairwise_lt_append_singleton hpw hlt
    · intro st hst
      simp only [activeStamps, List.map_nil, List.append_nil, List.mem_append,
        List.mem_singleton] at hst
      rcases hst with hst | rfl
      · exact Nat.lt_succ_of_lt (hlt st hst)
      · exact Nat.lt_succ_self _

lemma qinv_resolveStep (s : QueueState α) (h : QInv s) : QInv (resolveStep s) := by
  obtain ⟨done, hsh, hpw, hlt, hflag, hidle⟩ := h
  cases hA : s.active with
  | none => simpa [resolveStep, hA] using ⟨done, hsh, hpw, hlt, hflag, hidle⟩
  | some op =>
    rw [hA] at hsh hpw hlt hflag
    rw [resolveStep_active s op hA]
    cases hQ : s.queue with
    | nil =>
      rw [hQ] at hpw hlt
      refine ⟨done ++ [(op.stamp, op.id)], ?_, ?_, ?_, ?_, ?_⟩ <;>
        simp only [startNext]
      · simp [pairedTrace_append, pairedTrace, activeEvts, hsh]
      · simpa [activeStamps] using hpw
      · intro st hst
        refine hlt st ?_
        simpa [activeStamps] using hst
      · rfl
      · simp
    | cons q0 rest =>
      rw [hQ] at hpw hlt
      refine ⟨done ++ [(op.stamp, op.id)], ?_, ?_, ?_, ?_, ?_⟩ <;>
        simp only [startNext]
      · simp [pairedTrace_append, pairedTrace, activeEvts, hsh, List.append_assoc]
      · have heq : (done ++ [(op.stamp, op.id)]).map Prod.fst ++ activeStamps (some q0)
              ++ rest.map QOp.stamp
            = done.map Prod.fst ++ activeStamps (some op)
              ++ (q0 :: rest).map QOp.stamp := by
          simp [activeStamps, List.append_assoc]
        rw [heq]
        exact hpw
      · intro st hst
        refine hlt st ?_
        simp only [List.map_append, List.map_cons, List.map_nil, List.mem_append,
          List.mem_singleton, activeStamps, List.mem_cons] at hst ⊢
        tauto
      · exact hflag
      · intro hc
        rw [← hflag] at hc
        simp at hc

lemma qinv_clearStep (s : QueueState α) (h : QInv s) : QInv (clearStep s) := by
  obtain ⟨done, hsh, hpw, hlt, hflag, hidle⟩ := h
  refine ⟨done, hsh, ?_, ?_, hflag, by simp [clearStep]⟩ <;>
    simp only [clearStep]
  · refine hpw.sublist ?_
    simp only [List.map_nil, List.append_nil]
    exact List.sublist_append_left _ _
  · intro st hst
    refine hlt st ?_
    simp only [List.map_nil, List.append_nil, List.mem_append] at hst ⊢
    tauto

lemma qinv_stepQ (s : QueueState α) (a : QAction α) (h : QInv s) :
    QInv (stepQ s a) := by
  cases a with
  | enqueue id r => exact qinv_enqueueStep s id r h
  | resolve => exact qinv_resolveStep s h
  | clear => exact qinv_clearStep s h

lemma qinv_foldl (s : QueueState α) (as : List (QAction α)) (h : QInv s) :
    QInv (as.foldl stepQ s) := by
  induction as generalizing s with
  | nil => exact h
  | cons a rest ih => exact ih _ (qinv_stepQ s a h)

/-- Every reachable state of the queue machine satisfies the invariant. -/
lemma qinv_runQ (as : List (QAction α)) : QInv (runQ as) :=
  qinv_foldl _ _ qinv_initQ

lemma start_mem_pairedTrace {st : Nat} {id : String} {d : List (Nat × String)} :
    QEvent.start st id ∈ pairedTrace d ↔ (st, id) ∈ d := by
  induction d with
  | nil => simp [pairedTrace]
  | cons p rest ih => cases p; simp [pairedTrace, ih]

lemma start_mem_activeEvts {st : Nat} {id : String} {o : Option (QOp α)} :
    QEvent.start st id ∈ activeEvts o →
      ∃ op, o = some op ∧ op.stamp = st ∧ op.id = id := by
  cases o with
  | none => simp [activeEvts]
  | some op =>
    intro h
    simp only [activeEvts, List.mem_singleton, QEvent.start.injEq] at h
    exact ⟨op, rfl, h.1.symm, h.2.symm⟩

/-- C1: for any behaviour of the queue, if operation A was enqueued before
operation B (its enqueue stamp is smaller) and both works were started, then
the trace contains A's start, then A's finish (its work's promise settled),
then B's start, in that order: A begins and completes execution before B's
work begins, even when A's work is still pending at the time B is enqueued.
In particular no two operations' active execution windows ever overlap. -/
theorem queue_fifo_mutual_exclusion {α : Type} (as : List (QAction α))
    (a b : Nat) (ia ib : String)
    (ha : QEvent.start a ia ∈ (runQ as).trace)
    (hb : QEvent.start b ib ∈ (runQ as).trace) (hab : a < b) :
    List.Sublist [QEvent.start a ia, QEvent.finish a ia, QEvent.start b ib]
      (runQ as).trace := by
  obtain ⟨done, hsh, hpw, hlt, hflag, hidle⟩ := qinv_runQ as
  rw [hsh] at ha hb ⊢
  have hcross : ∀ x ∈ done.map Prod.fst,
      ∀ y ∈ activeStamps (runQ as).active, x < y := by
    intro x hx y hy
    rw [List.append_assoc] at hpw
    exact (List.pairwise_append.mp hpw).2.2 x hx y (List.mem_append_left _ hy)
  have hadone : (a, ia) ∈ done := by
    rcases List.mem_append.mp ha with h | h
    · exact start_mem_pairedTrace.mp h
    · obtain ⟨op, hop, hst, _⟩ := start_mem_activeEvts h
      exfalso
      rcases List.mem_append.mp hb with h2 | h2
      · have hbdone : (b, ib) ∈ done := start_mem_pairedTrace.mp h2
        have : b < a := by
          refine hcross b (List.mem_map.mpr ⟨(b, ib), hbdone, rfl⟩) a ?_
          simp [hop, activeStamps, hst]
        exact absurd hab (Nat.lt_asymm this)
      · obtain ⟨op2, hop2, hst2, _⟩ := start_mem_activeEvts h2
        rw [hop] at hop2
        cases hop2
        rw [hst] at hst2
        rw [hst2] at hab
        exact Nat.lt_irrefl _ hab
  obtain ⟨d1, d2, hdone⟩ := List.append_of_mem hadone
  have hd1lt : ∀ p ∈ d1, p.1 < a := by
    intro p hp
    have hdonepw : List.Pairwise (· < ·) (done.map Prod.fst) :=
      hpw.sublist ((List.sublist_append_left _ _).trans (List.sublist_append_left _ _))
    rw [hdone] at hdonepw
    simp only [List.map_append, List.map_cons, List.pairwise_append] at hdonepw
    exact hdonepw.2.2 p.1 (List.mem_map.mpr ⟨p, hp, rfl⟩) a (by simp)
  have hbtail : QEvent.start b ib ∈ pairedTrace d2 ++ activeEvts (runQ as).active := by
    rcases List.mem_append.mp hb with h | h
    · have hbdone : (b, ib) ∈ done := start_mem_pairedTrace.mp h
      rw [hdone] at hbdone
      rcases List.mem_append.mp hbdone with h2 | h2
      · exact absurd hab (Nat.lt_asymm (hd1lt (b, ib) h2))
      · rcases List.mem_cons.mp h2 with h3 | h3
        · cases h3; exact absurd hab (Nat.lt_irrefl _)
        · exact List.mem_append_left _ (start_mem_pairedTrace.mpr h3)
    · exact List.mem_append_right _ h
  rw [hdone, pairedTrace_append, pairedTrace, List.append_assoc, List.cons_append,
    List.cons_append]
  refine List.Sublist.trans ?_ (List.sublist_append_right _ _)
  exact (List.singleton_sublist.mpr hbtail).cons₂ _ |>.cons₂ _

/-- C1 witness: a concrete run in which operation "a" (stamp 0) is enqueued,
its work settles, and then operation "b" (stamp 1) is enqueued; the ordering
theorem applies and yields the fully ordered trace. -/
theorem queue_fifo_mutual_exclusion_witness :
    QEvent.start 0 "a" ∈ (runQ [QAction.enqueue "a" (Except.ok 0),
        QAction.resolve, QAction.enqueue "b" (Except.ok (1 : Nat))]).trace ∧
    QEvent.start 1 "b" ∈ (runQ [QAction.enqueue "a" (Except.ok 0),
        QAction.resolve, QAction.enqueue "b" (Except.ok (1 : Nat))]).trace ∧
    List.Sublist [QEvent.start 0 "a", QEvent.finish 0 "a", QEvent.start 1 "b"]
      (runQ [QAction.enqueue "a" (Except.ok 0), QAction.resolve,
        QAction.enqueue "b" (Except.ok (1 : Nat))]).trace := by
  have h1 : QEvent.start 0 "a" ∈ (runQ [QAction.enqueue "a" (Except.ok 0),
      QAction.resolve, QAction.enqueue "b" (Except.ok (1 : Nat))]).trace := by
    simp [runQ, stepQ, enqueueStep, resolveStep, startNext, initQ]
  have h2 : QEvent.start 1 "b" ∈ (runQ [QAction.enqueue "a" (Except.ok 0),
      QAction.resolve, QAction.enqueue "b" (Except.ok (1 : Nat))]).trace := by
    simp [runQ, stepQ, enqueueStep, resolveStep, startNext, initQ]
  exact ⟨h1, h2, queue_fifo_mutual_exclusion _ 0 1 "a" "b" h1 h2 (by decide)⟩

/-- C4 counterexample: on an idle queue, the synchronous part of `enqueue`
already begins executing the enqueued operation's work: starting from a fresh
queue, the trace right after the `enqueue` call returns already contains the
work's start event, refuting "no part of work runs before the enqueue call
returns, regardless of whether the queue is idle or draining". -/
theorem enqueue_sync_start_counterexample :
    (initQ : QueueState Nat).isProcessing = false ∧
    (enqueueStep (initQ : QueueState Nat) "op1" (Except.ok 0)).trace
      = [QEvent.start 0 "op1"] ∧
    ¬ (enqueueStep (initQ : QueueState Nat) "op1" (Except.ok 0)).trace
      = (initQ : QueueState Nat).trace := by
  refine ⟨rfl, ?_, ?_⟩ <;> simp [enqueueStep, initQ, startNext]

/-- C4 (amended): `enqueue` appends the operation to the pending sequence and
returns a future; when the queue is already draining, no part of the
operation's work runs and nothing settles before the call returns (the state
change is exactly the append); when the queue is idle, the call synchronously
triggers the drain loop, which begins executing the newly enqueued operation's
work (up to its first suspension point) before `enqueue` returns — still
without settling anything synchronously. -/
theorem enqueue_appends_and_defers (s : QueueState α) (id : String)
    (r : Except String α) (h : QInv s) :
    (s.isProcessing = true →
      enqueueStep s id r
        = { s with
            queue := s.queue ++ [{ id := id, result := r, stamp := s.nextStamp }]
            nextStamp := s.nextStamp + 1 }) ∧
    (s.isProcessing = false →
      (enqueueStep s id r).trace = s.trace ++ [QEvent.start s.nextStamp id] ∧
      (enqueueStep s id r).active
        = some { id := id, result := r, stamp := s.nextStamp } ∧
      (enqueueStep s id r).settled = s.settled) := by
  obtain ⟨done, hsh, hpw, hlt, hflag, hidle⟩ := h
  refine ⟨fun hP => enqueueStep_busy s id r hP, fun hP => ?_⟩
  rw [enqueueStep_idle s id r hP (hidle hP)]
  exact ⟨rfl, rfl, rfl⟩

/-- C4 witness: the amended statement applied to the fresh (idle) queue. -/
theorem enqueue_appends_and_defers_witness :
    (initQ : QueueState Nat).isProcessing = false ∧
    (enqueueStep (initQ : QueueState Nat) "w" (Except.ok 5)).trace
      = (initQ : QueueState Nat).trace ++ [QEvent.start 0 "w"] := by
  refine ⟨rfl, ?_⟩
  exact ((enqueue_appends_and_defers (initQ : QueueState Nat) "w" (Except.ok 5)
    qinv_initQ).2 rfl).1

/-- Outcomes still owed to callers: the active operation's own outcome
followed by the queued operations' own outcomes, in order. -/
def pendingOutcomes (s : QueueState α) : List (String × Except String α) :=
  (s.active.toList ++ s.queue).map (fun op => (op.id, op.result))

/-- Number of drain-continuation steps needed to settle everything. -/
def measureQ (s : QueueState α) : Nat :=
  s.queue.length + (if s.active.isSome then 1 else 0)

/-- Iterate the drain continuation until the queue is fully drained (the fuel
bounds the number of settlements; `measureQ` is always enough). -/
def drainFuel : Nat → QueueState α → QueueState α
  | 0, s => s
  | n + 1, s =>
      match s.active with
      | none => s
      | some _ => drainFuel n (resolveStep s)

/-- Whether a stimulus is a `clear()` call. -/
def isClearA : QAction α → Bool
  | QAction.clear => true
  | _ => false

/-- The operations submitted by a stimulus list, each paired with the outcome
its work settles with, in enqueue order. -/
def enqueuedOps : List (QAction α) → List (String × Except String α)
  | [] => []
  | QAction.enqueue id r :: rest => (id, r) :: enqueuedOps rest
  | QAction.resolve :: rest => enqueuedOps rest
  | QAction.clear :: rest => enqueuedOps rest

lemma settled_accounting_step (s : QueueState α) (a : QAction α)
    (hI : QInv s) (hnc : isClearA a = false) :
    (stepQ s a).settled ++ pendingOutcomes (stepQ s a)
      = s.settled ++ pendingOutcomes s ++ enqueuedOps [a] := by
  obtain ⟨done, hsh, hpw, hlt, hflag, hidle⟩ := hI
  cases a with
  | clear => simp [isClearA] at hnc
  | enqueue id r =>
    cases hP : s.isProcessing with
    | true =>
      rw [show stepQ s (QAction.enqueue id r) = enqueueStep s id r from rfl,
        enqueueStep_busy s id r hP]
      simp [pendingOutcomes, enqueuedOps]
    | false =>
      have hA : s.active = none := by
        cases hA : s.active with
        | none => rfl
        | some op => rw [hA] at hflag; rw [hP] at hflag; simp at hflag
      have hQ : s.queue = [] := hidle hP
      rw [show stepQ s (QAction.enqueue id r) = enqueueStep s id r from rfl,
        enqueueStep_idle s id r hP hQ]
      simp [pendingOutcomes, enqueuedOps, hA, hQ]
  | resolve =>
    cases hA : s.active with
    | none => simp [stepQ, resolveStep, hA, enqueuedOps]
    | some op =>
      rw [show stepQ s QAction.resolve = resolveStep s from rfl,
        resolveStep_active s op hA]
      cases hQ : s.queue with
      | nil => simp [startNext, pendingOutcomes, enqueuedOps, hA, hQ]
      | cons q0 rest => simp [startNext, pendingOutcomes, enqueuedOps, hA, hQ]

lemma settled_accounting (as : List (QAction α)) (s : QueueState α)
    (hI : QInv s) (hnc : as.all (fun a => !isClearA a) = true) :
    (as.foldl stepQ s).settled ++ pendingOutcomes (as.foldl stepQ s)
      = s.settled ++ pendingOutcomes s ++ enqueuedOps as := by
  induction as generalizing s with
  | nil => simp [enqueuedOps]
  | cons a rest ih =>
    simp only [List.all_cons, Bool.and_eq_true, Bool.not_eq_true'] at hnc
    have h1 := settled_accounting_step s a hI hnc.1
    have h2 := ih (stepQ s a) (qinv_stepQ s a hI) (by simpa using hnc.2)
    have henq : enqueuedOps (a :: rest) = enqueuedOps [a] ++ enqueuedOps rest := by
      cases a <;> simp [enqueuedOps]
    calc (List.foldl stepQ s (a :: rest)).settled
        ++ pendingOutcomes (List.foldl stepQ s (a :: rest))
        = (rest.foldl stepQ (stepQ s a)).settled
          ++ pendingOutcomes (rest.foldl stepQ (stepQ s a)) := by rfl
      _ = (stepQ s a).settled ++ pendingOutcomes (stepQ s a) ++ enqueuedOps rest := h2
      _ = s.settled ++ pendingOutcomes s ++ enqueuedOps [a] ++ enqueuedOps rest := by
          rw [h1]
      _ = s.settled ++ pendingOutcomes s ++ enqueuedOps (a :: rest) := by
          rw [henq, List.append_assoc]

lemma drainFuel_spec (fuel : Nat) (s : QueueState α) (hI : QInv s)
    (hfuel : measureQ s ≤ fuel) :
    (drainFuel fuel s).settled = s.settled ++ pendingOutcomes s ∧
    (drainFuel fuel s).active = none ∧ (drainFuel fuel s).queue = [] := by
  induction fuel generalizing s with
  | zero =>
    have hm : measureQ s = 0 := Nat.le_zero.mp hfuel
    have hA : s.active = none := by
      cases hA : s.active with
      | none => rfl
      | some op => rw [measureQ, hA] at hm; simp at hm
    have hQ : s.queue = [] := by
      rw [measureQ] at hm
      exact List.length_eq_zero.mp (Nat.le_zero.mp (Nat.le.intro hm))
    exact ⟨by simp [drainFuel, pendingOutcomes, hA, hQ], by simp [drainFuel, hA],
      by simp [drainFuel, hQ]⟩
  | succ n ih =>
    obtain ⟨done, hsh, hpw, hlt, hflag, hidle⟩ := hI
    cases hA : s.active with
    | none =>
      have hQ : s.queue = [] := by
        refine hidle ?_
        rw [← hflag, hA]
        rfl
      exact ⟨by simp [drainFuel, hA, pendingOutcomes, hQ], by simp [drainFuel, hA],
        by simp [drainFuel, hA, hQ]⟩
    | some op =>
      have hstep : drainFuel (n + 1) s = drainFuel n (resolveStep s) := by
        simp [drainFuel, hA]
      have hI2 : QInv (resolveStep s) :=
        qinv_resolveStep s ⟨done, hsh, hpw, hlt, hflag, hidle⟩
      have hm2 : measureQ (resolveStep s) ≤ n := by
        rw [resolveStep_active s op hA]
        cases hQ : s.queue with
        | nil => simp [startNext, measureQ]
        | cons q0 rest =>
          rw [measureQ, hQ, hA] at hfuel
          simp only [startNext, measureQ, List.length_cons, Option.isSome_some,
            if_pos] at hfuel ⊢
          omega
      obtain ⟨hs, ha2, hq2⟩ := ih (resolveStep s) hI2 hm2
      rw [hstep, hs]
      refine ⟨?_, ha2, hq2⟩
      rw [resolveStep_active s op hA]
      cases hQ : s.queue with
      | nil => simp [startNext, pendingOutcomes, hA, hQ]
      | cons q0 rest => simp [startNext, pendingOutcomes, hA, hQ]

/-- C6: failure isolation.  For any `clear`-free behaviour, draining the queue
to completion settles every enqueued operation, in enqueue order, each with
exactly the outcome of its own work — an operation whose work rejects has its
future rejected with that same error, and every operation enqueued after it
still executes, settles, and receives its own outcome unchanged. -/
theorem queue_failure_isolation (as : List (QAction α)) (fuel : Nat)
    (hnc : as.all (fun a => !isClearA a) = true)
    (hfuel : measureQ (runQ as) ≤ fuel) :
    (drainFuel fuel (runQ as)).settled = enqueuedOps as ∧
    (drainFuel fuel (runQ as)).active = none ∧
    (drainFuel fuel (runQ as)).queue = [] := by
  have hacc := settled_accounting as initQ qinv_initQ hnc
  obtain ⟨hs, ha, hq⟩ := drainFuel_spec fuel (runQ as) (qinv_runQ as) hfuel
  refine ⟨?_, ha, hq⟩
  rw [hs, show runQ as = as.foldl stepQ initQ from rfl, hacc]
  simp [initQ, pendingOutcomes]

/-- C6 witness: operation "a" fails with error "boom", operation "b" (enqueued
while "a" is still executing) succeeds with 7; after the drain both settled in
order, "a" rejected with its own error and "b" resolved with its own value. -/
theorem queue_failure_isolation_witness :
    ([QAction.enqueue "a" (Except.error "boom"),
        QAction.enqueue "b" (Except.ok (7 : Nat))].all (fun a => !isClearA a)
      = true) ∧
    measureQ (runQ [QAction.enqueue "a" (Except.error "boom"),
        QAction.enqueue "b" (Except.ok (7 : Nat))]) ≤ 2 ∧
    (drainFuel 2 (runQ [QAction.enqueue "a" (Except.error "boom"),
        QAction.enqueue "b" (Except.ok (7 : Nat))])).settled
      = [("a", Except.error "boom"), ("b", Except.ok 7)] := by
  refine ⟨by decide, by decide, ?_⟩
  rw [(queue_failure_isolation [QAction.enqueue "a" (Except.error "boom"),
    QAction.enqueue "b" (Except.ok (7 : Nat))] 2 (by decide) (by decide)).1]
  simp [enqueuedOps]

/-- C7: `clear()` empties the pending sequence immediately and rejects every
not-yet-started operation's future with the cancellation error, while the
operation already mid-execution is untouched: it remains active, and when its
work settles its own outcome is still delivered (after which the drain ends
on the now-empty queue). -/
theorem clear_cancels_only_pending (s : QueueState α) (op : QOp α)
    (h : s.active = some op) :
    (clearStep s).queue = [] ∧
    (clearStep s).settled
      = s.settled ++ s.queue.map (fun o => (o.id, Except.error cancelMsg)) ∧
    (clearStep s).active = some op ∧
    (resolveStep (clearStep s)).settled
      = s.settled ++ s.queue.map (fun o => (o.id, Except.error cancelMsg))
        ++ [(op.id, op.result)] ∧
    (resolveStep (clearStep s)).isProcessing = false := by
  refine ⟨rfl, rfl, h, ?_, ?_⟩ <;> simp [resolveStep, clearStep, h, startNext]

/-- C7 witness: "a" is mid-execution and "b" still pending when `clear()`
runs; "b" is rejected with the cancellation error, "a" finishes naturally and
still resolves with its own value. -/
theorem clear_cancels_only_pending_witness :
    (runQ [QAction.enqueue "a" (Except.ok (1 : Nat)),
        QAction.enqueue "b" (Except.ok 2)]).active
      = some { id := "a", result := Except.ok 1, stamp := 0 } ∧
    (clearStep (runQ [QAction.enqueue "a" (Except.ok (1 : Nat)),
        QAction.enqueue "b" (Except.ok 2)])).settled
      = [("b", Except.error cancelMsg)] ∧
    (resolveStep (clearStep (runQ [QAction.enqueue "a" (Except.ok (1 : Nat)),
        QAction.enqueue "b" (Except.ok 2)]))).settled
      = [("b", Except.error cancelMsg), ("a", Except.ok 1)] := by
  have h : (runQ [QAction.enqueue "a" (Except.ok (1 : Nat)),
      QAction.enqueue "b" (Except.ok 2)]).active
      = some { id := "a", result := Except.ok 1, stamp := 0 } := by
    simp [runQ, stepQ, enqueueStep, startNext, initQ]
  have hc := clear_cancels_only_pending _ _ h
  refine ⟨h, ?_, ?_⟩
  · rw [hc.2.1]
    simp [runQ, stepQ, enqueueStep, startNext, initQ]
  · rw [hc.2.2.2.1]
    simp [runQ, stepQ, enqueueStep, startNext, initQ]

end AsyncQueue

namespace CartStore

/-- Display metadata (icon glyph and accent colour) for a product. -/
structure Meta where
  icon : String
  color : String
deriving DecidableEq, Repr

/-- The static `PRODUCT_META` mapping of the cart store, keyed on product id
(NBA jerseys); unmapped ids yield `none` and callers fall back to
`fallbackMeta`. -/
def PRODUCT_META : String → Option Meta
  | "lebron-lakers-jersey" => some { icon := "👑", color := "#552583" }
  | "curry-warriors-jersey" => some { icon := "🏹", color := "#1D428A" }
  | "giannis-bucks-jersey" => some { icon := "🇬🇷", color := "#00471B" }
  | "luka-mavs-jersey" => some { icon := "🏀", color := "#00538C" }
  | "tatum-celtics-jersey" => some { icon := "☘️", color := "#007A33" }
  | "jordan-bulls-jersey" => some { icon := "🐐", color := "#CE1141" }
  | _ => none

/-- The generic fallback used when a product id is unmapped
(`|| '📦'` and `|| '#3b82f6'` in the source). -/
def fallbackMeta : Meta := { icon := "📦", color := "#3b82f6" }

/-- A cart line entry (`CartItem` in the source). -/
structure CartItem where
  id : String
  productId : String
  variantId : String
  name : String
  variant : String
  price : Int
  quantity : Int
  imageUrl : String
  icon : String
  color : String
deriving DecidableEq, Repr

/-- The caller-supplied argument of `addItem` (`Omit<CartItem, 'id'>` with the
icon/colour fields irrelevant because `addItem` overwrites them from
`PRODUCT_META`). -/
structure NewItem where
  productId : String
  variantId : String
  name : String
  variant : String
  price : Int
  quantity : Int
  imageUrl : String
deriving DecidableEq, Repr

/-- A line of the server cart snapshot returned by `get_cart_state`
(`image_url` is optional; `i.image_url || ''` defaults it). -/
structure SnapItem where
  product_id : String
  variant_id : String
  name : String
  variant : String
  price : Int
  quantity : Int
  image_url : Option String
deriving DecidableEq, Repr

/-- The optimistic new line built by `addItem`: id `cart-<pid>-<vid>`, the
caller's fields, and icon/colour from `PRODUCT_META` with the generic
fallback. -/
def mkCartItem (n : NewItem) : CartItem :=
  { id := "cart-" ++ n.productId ++ "-" ++ n.variantId
    productId := n.productId
    variantId := n.variantId
    name := n.name
    variant := n.variant
    price := n.price
    quantity := n.quantity
    imageUrl := n.imageUrl
    icon := ((PRODUCT_META n.productId).getD fallbackMeta).icon
    color := ((PRODUCT_META n.productId).getD fallbackMeta).color }

/-- Mutate the first list entry satisfying `p` in place (the
`findIndex`-then-assign pattern of the source); no match leaves the list
unchanged. -/
def bumpFirst (p : CartItem → Bool) (f : CartItem → CartItem) :
    List CartItem → List CartItem
  | [] => []
  | x :: xs => if p x then f x :: xs else x :: bumpFirst p f xs

/-- Whether a line matches a (productId, variantId) pair. -/
def pairMatch (pid vid : String) (i : CartItem) : Bool :=
  i.productId == pid && i.variantId == vid

/-- The optimistic update of `addItem`: if a line with the same
(productId, variantId) pair exists, increment its quantity by the added
quantity; otherwise push the new line at the end. -/
def applyAdd (items : List CartItem) (n : NewItem) : List CartItem :=
  if items.any (pairMatch n.productId n.variantId) then
    bumpFirst (pairMatch n.productId n.variantId)
      (fun i => { i with quantity := i.quantity + n.quantity }) items
  else
    items ++ [mkCartItem n]

/-- The optimistic update of `removeItem`: filter out the matching line. -/
def applyRemove (items : List CartItem) (itemId : String) : List CartItem :=
  items.filter (fun i => !(i.id == itemId))

/-- The optimistic update of `updateQuantity`: quantity ≤ 0 removes the line;
otherwise the first line with the id gets the new quantity (no match, e.g.
because an earlier queued operation removed the line, changes nothing). -/
def applyUpdate (items : List CartItem) (itemId : String) (q : Int) :
    List CartItem :=
  if q ≤ 0 then
    items.filter (fun i => !(i.id == itemId))
  else
    bumpFirst (fun i => i.id == itemId) (fun i => { i with quantity := q }) items

/-- The four mutating cart operations and their payloads. -/
inductive OpKind
  | add (n : NewItem)
  | remove (itemId : String)
  | update (itemId : String) (qty : Int)
  | clearCart
deriving DecidableEq, Repr

/-- The optimistic (synchronous, local) effect of each operation on `items`
(`clearCart` empties the list). -/
def applyKind (items : List CartItem) : OpKind → List CartItem
  | OpKind.add n => applyAdd items n
  | OpKind.remove itemId => applyRemove items itemId
  | OpKind.update itemId q => applyUpdate items itemId q
  | OpKind.clearCart => []

/-- Map one line of the server snapshot into a local `CartItem`, re-deriving
the icon/colour from `PRODUCT_META` with the generic fallback, as the
`snapshot.items.map` in `syncCart` does. -/
def mapSnapItem (i : SnapItem) : CartItem :=
  { id := "cart-" ++ i.product_id ++ "-" ++ i.variant_id
    productId := i.product_id
    variantId := i.variant_id
    name := i.name
    variant := i.variant
    price := i.price
    quantity := i.quantity
    imageUrl := i.image_url.getD ""
    icon := ((PRODUCT_META i.product_id).getD fallbackMeta).icon
    color := ((PRODUCT_META i.product_id).getD fallbackMeta).color }

/-- The result of the awaited `get_cart_state` call: an error (rejected
fetch), or a response whose `result.data.cart` is missing or not a list
(`none`), or the snapshot's lines. -/
abbrev FetchResult := Except String (Option (List SnapItem))

/-- `syncCart`, shallowly embedded.  The two `pendingOperations.value` reads
are separated by the awaited fetch, so they are passed separately:
`pendingAtCall` is the set at the guard before the fetch is issued, and
`pendingAtResponse` the set at the re-check after the response arrives.
A missing session id, a non-empty pending set at either read, a rejected
fetch (the `catch` only logs) or a malformed snapshot all leave `items`
unchanged; otherwise `items` is replaced wholesale by the mapped snapshot. -/
def syncCart (sessionId : Option String)
    (pendingAtCall pendingAtResponse : List String)
    (items : List CartItem) (fetch : FetchResult) : List CartItem :=
  match sessionId with
  | none => items
  | some _ =>
    if pendingAtCall.length > 0 then items
    else
      match fetch with
      | Except.error _ => items
      | Except.ok none => items
      | Except.ok (some snap) =>
          if pendingAtResponse.length = 0 then snap.map mapSnapItem else items

/-- The `items` checkpoints of one mutating operation's work function, run in
isolation (the queue serializes operations, so nothing interleaves):
`afterOptimistic` is `items` right after the synchronous optimistic update;
`afterSettle` is `items` right after the server call settled (kept on
success, restored from the backup on failure); `final` is `items` after the
`finally` resync; `result` is the outcome the work settles with. -/
structure MutRun where
  afterOptimistic : List CartItem
  afterSettle : List CartItem
  final : List CartItem
  result : Except String Unit
deriving Repr

/-- One mutating operation's work function (`addItem` / `removeItem` /
`updateQuantity` / `clearCart` all follow this template): back up `items`,
apply the optimistic update, await the server call (`server` is its outcome),
on rejection restore `items` from the backup (full overwrite) and rethrow,
then in `finally` (its own pending id deleted, the pending set empty) run the
resync with fetch outcome `fetch`. -/
def runMutation (kind : OpKind) (sessionId : Option String)
    (server : Except String Unit) (fetch : FetchResult)
    (items0 : List CartItem) : MutRun :=
  let backup := items0
  let optimistic := applyKind items0 kind
  let afterSettle :=
    match server with
    | Except.ok _ => optimistic
    | Except.error _ => backup
  { afterOptimistic := optimistic
    afterSettle := afterSettle
    final := syncCart sessionId [] [] afterSettle fetch
    result := server }

/-- C3: a resync that observes a non-empty pending-mutation set is a no-op on
`items`: if the set is non-empty at call time the fetch is not even issued,
and if it became non-empty by the time the response arrives the overwrite is
skipped; in both cases, and for every session id and fetch outcome, `items`
is returned unchanged. -/
theorem resync_suppressed_while_pending (sessionId : Option String)
    (x : String) (xs : List String) (pr : List String) (y : String)
    (ys : List String) (items : List CartItem) (fetch : FetchResult) :
    syncCart sessionId (x :: xs) pr items fetch = items ∧
    syncCart sessionId [] (y :: ys) items fetch = items := by
  constructor
  · cases sessionId with
    | none => rfl
    | some sid => simp [syncCart]
  · cases sessionId with
    | none => rfl
    | some sid =>
      cases fetch with
      | error e => simp [syncCart]
      | ok o =>
        cases o with
        | none => simp [syncCart]
        | some snap => simp [syncCart]

/-- C8: a resync with a session id and no pending mutations replaces `items`
wholesale with the mapped server snapshot on success (independently of the
previous `items`), maps each line's icon and colour through `PRODUCT_META`
with the generic 📦/#3b82f6 fallback for unmapped ids, and on a rejected
fetch (or a malformed response) returns `items` untouched — `syncCart` is a
total function, so the error never propagates, and it consumes a single fetch
outcome, so there is no retry. -/
theorem resync_replaces_wholesale_or_noop (sid : String)
    (items other : List CartItem) (e : String) (snap : List SnapItem)
    (i : SnapItem) :
    syncCart (some sid) [] [] items (Except.error e) = items ∧
    syncCart (some sid) [] [] items (Except.ok none) = items ∧
    syncCart (some sid) [] [] items (Except.ok (some snap))
      = snap.map mapSnapItem ∧
    syncCart (some sid) [] [] items (Except.ok (some snap))
      = syncCart (some sid) [] [] other (Except.ok (some snap)) ∧
    (mapSnapItem i).icon = ((PRODUCT_META i.product_id).getD fallbackMeta).icon ∧
    (mapSnapItem i).color
      = ((PRODUCT_META i.product_id).getD fallbackMeta).color ∧
    PRODUCT_META "unmapped-product" = none ∧
    fallbackMeta = { icon := "📦", color := "#3b82f6" } := by
  refine ⟨?_, ?_, ?_, ?_, rfl, rfl, rfl, rfl⟩ <;> simp [syncCart]

/-- A cart operation pushed onto the shared `cartOperationsQueue` but not yet
started: its generated id, kind, session id, and the outcomes of the two
server calls its work will make (the mutation call and the `finally` resync
fetch). -/
structure QueuedCartOp where
  opId : String
  kind : OpKind
  session : Option String
  server : Except String Unit
  fetch : FetchResult
deriving Repr

/-- Where the currently executing work function is suspended: at the awaited
mutation server call, or at the awaited `finally`-resync fetch (carrying the
outcome the work will settle with once the resync finishes). -/
inductive WorkPhase
  | awaitingServer
  | awaitingFetch (outcome : Except String Unit)
deriving Repr

/-- The currently executing cart operation: its queued data, the backup of
`items` captured at the start of its work, and its suspension point. -/
structure Running where
  opId : String
  kind : OpKind
  session : Option String
  server : Except String Unit
  fetch : FetchResult
  backup : List CartItem
  phase : WorkPhase
deriving Repr

/-- A server call issued through `chatApi.mcpAction` (tool name and session
id; the instrument for "a server call was made"). -/
structure Call where
  tool : String
  session : Option String
deriving DecidableEq, Repr

/-- State of the cart store together with its operation queue: the reactive
`items` and `pendingOperations` refs, the queue of not-yet-started
operations, the drain flag, the suspended operation, and instrumentation
(`calls`: every issued server call in order; `settled`: each operation's
delivered outcome in order; `now`: the monotonic clock standing in for
`Date.now()` in generated operation ids). -/
structure SysState where
  items : List CartItem
  pending : List String
  queue : List QueuedCartOp
  isProcessing : Bool
  running : Option Running
  calls : List Call
  settled : List (String × Except String Unit)
  now : Nat
deriving Repr

/-- The initial store: empty cart, nothing pending, idle queue. -/
def initS : SysState :=
  { items := [], pending := [], queue := [], isProcessing := false,
    running := none, calls := [], settled := [], now := 0 }

/-- JavaScript `Set.add`: append only if absent. -/
def setAdd (s : List String) (x : String) : List String :=
  if s.contains x then s else s ++ [x]

/-- JavaScript `Set.delete`: remove the entry. -/
def setDelete (s : List String) (x : String) : List String :=
  s.filter (fun y => !(y == x))

/-- The MCP tool name of each mutating operation's server call. -/
def toolName : OpKind → String
  | OpKind.add _ => "add_to_cart"
  | OpKind.remove _ => "remove_from_cart"
  | OpKind.update _ _ => "set_cart_quantity"
  | OpKind.clearCart => "clear_cart"

/-- The synchronous prefix of a work function, run when the drain loop calls
it: back up `items`, register the operation id in `pendingOperations`, apply
the optimistic update, and issue the mutation server call (the work then
suspends at the `await`). -/
def beginOp (op : QueuedCartOp) (s : SysState) : SysState :=
  { s with
    running := some
      { opId := op.opId, kind := op.kind, session := op.session,
        server := op.server, fetch := op.fetch, backup := s.items,
        phase := WorkPhase.awaitingServer }
    pending := setAdd s.pending op.opId
    items := applyKind s.items op.kind
    calls := s.calls ++ [{ tool := toolName op.kind, session := op.session }] }

/-- One iteration boundary of the drain loop: start the next queued
operation's work, or end the drain when the queue is empty. -/
def startNextS (s : SysState) : SysState :=
  match s.queue with
  | [] => { s with isProcessing := false, running := none }
  | op :: rest => beginOp op { s with queue := rest, running := none }

/-- The synchronous part of `cartOperationsQueue.enqueue` as called by the
cart store: push the operation and, when idle, synchronously begin the drain
(which runs the head operation's work up to its first `await`). -/
def enqueueCart (opId : String) (k : OpKind) (session : Option String)
    (server : Except String Unit) (fetch : FetchResult) (s : SysState) :
    SysState :=
  if s.isProcessing then
    { s with
      queue := s.queue
        ++ [{ opId := opId, kind := k, session := session, server := server,
              fetch := fetch }]
      now := s.now + 1 }
  else
    startNextS
      { s with
        queue := s.queue
          ++ [{ opId := opId, kind := k, session := session, server := server,
                fetch := fetch }]
        now := s.now + 1
        isProcessing := true }

/-- A call to `addItem` / `removeItem` / `updateQuantity` / `clearCart`:
`removeItem` and `updateQuantity` first look the item up in `items` and
return without enqueueing anything when it is absent; otherwise the operation
id is generated (kind, product/variant of the looked-up item, and the clock)
and the operation is enqueued. -/
def callMutation (k : OpKind) (session : Option String)
    (server : Except String Unit) (fetch : FetchResult) (s : SysState) :
    SysState :=
  match k with
  | OpKind.add n =>
      enqueueCart ("add-" ++ n.productId ++ "-" ++ n.variantId ++ "-"
        ++ toString s.now) k session server fetch s
  | OpKind.remove itemId =>
      match s.items.find? (fun i => i.id == itemId) with
      | none => s
      | some it =>
          enqueueCart ("remove-" ++ it.productId ++ "-" ++ it.variantId ++ "-"
            ++ toString s.now) k session server fetch s
  | OpKind.update itemId _ =>
      match s.items.find? (fun i => i.id == itemId) with
      | none => s
      | some it =>
          enqueueCart ("update-" ++ it.productId ++ "-" ++ it.variantId ++ "-"
            ++ toString s.now) k session server fetch s
  | OpKind.clearCart =>
      enqueueCart ("clear-" ++ toString s.now) k session server fetch s

/-- Deliver the operation's outcome to its caller and continue the drain
loop. -/
def settleAndContinue (opId : String) (outcome : Except String Unit)
    (s : SysState) : SysState :=
  startNextS { s with settled := s.settled ++ [(opId, outcome)] }

/-- The continuation that runs when the awaited mutation server call settles:
on success keep the optimistic `items` and prepare the success result; on
rejection restore `items` from the backup (full overwrite) and prepare the
rethrown error.  Then the `finally` block deletes the operation's id from
`pendingOperations` and calls `syncCart`: with no session id, or with the
pending set still non-empty, the resync returns immediately and the work
settles; otherwise the resync fetch is issued and the work suspends at its
`await`. -/
def serverRespond (s : SysState) : SysState :=
  match s.running with
  | none => s
  | some r =>
    match r.phase with
    | WorkPhase.awaitingFetch _ => s
    | WorkPhase.awaitingServer =>
      let items1 := match r.server with
        | Except.ok _ => s.items
        | Except.error _ => r.backup
      let outcome : Except String Unit := r.server
      let pending1 := setDelete s.pending r.opId
      match r.session with
      | none =>
          settleAndContinue r.opId outcome
            { s with items := items1, pending := pending1 }
      | some sid =>
          if pending1.length > 0 then
            settleAndContinue r.opId outcome
              { s with items := items1, pending := pending1 }
          else
            { s with
              items := items1
              pending := pending1
              calls := s.calls ++ [{ tool := "get_cart_state", session := some sid }]
              running := some { r with phase := WorkPhase.awaitingFetch outcome } }

/-- The continuation that runs when the awaited resync fetch settles: a valid
snapshot with the pending set (re-checked) empty replaces `items` wholesale
via `mapSnapItem`; a rejected fetch or malformed snapshot leaves `items`
untouched (the `catch` only logs).  The `finally` block is then done and the
work settles with the prepared outcome. -/
def fetchRespond (s : SysState) : SysState :=
  match s.running with
  | none => s
  | some r =>
    match r.phase with
    | WorkPhase.awaitingServer => s
    | WorkPhase.awaitingFetch outcome =>
      let items1 := match r.fetch with
        | Except.ok (some snap) =>
            if s.pending.length = 0 then snap.map mapSnapItem else s.items
        | Except.ok none => s.items
        | Except.error _ => s.items
      settleAndContinue r.opId outcome { s with items := items1 }

/-- `cartOperationsQueue.clear()`: reject every not-yet-started operation with
the cancellation error and empty the queue; the running operation and the
pending set are untouched. -/
def queueClearS (s : SysState) : SysState :=
  { s with
    queue := []
    settled := s.settled ++ s.queue.map
      (fun op => (op.opId, Except.error AsyncQueue.cancelMsg)) }

/-- The external stimuli of the cart system: a store-action call (with the
outcomes of the server calls the operation will make), the settlement of the
awaited mutation call, the settlement of the awaited resync fetch, and a
queue `clear()`. -/
inductive CAction
  | call (k : OpKind) (session : Option String) (server : Except String Unit)
      (fetch : FetchResult)
  | serverResp
  | fetchResp
  | clearQ

/-- Step function of the cart system machine. -/
def stepS (s : SysState) : CAction → SysState
  | CAction.call k session server fetch => callMutation k session server fetch s
  | CAction.serverResp => serverRespond s
  | CAction.fetchResp => fetchRespond s
  | CAction.clearQ => queueClearS s

/-- Run the cart system from the initial store. -/
def runS (as : List CAction) : SysState :=
  as.foldl stepS initS

/-- Example `addItem` argument: a LeBron Lakers jersey line. -/
def lebronItem : NewItem where
  productId := "lebron-lakers-jersey"
  variantId := "v1"
  name := "LeBron Jersey"
  variant := "M"
  price := 100
  quantity := 1
  imageUrl := ""

/-- Example `addItem` argument: a Curry Warriors jersey line. -/
def curryItem : NewItem where
  productId := "curry-warriors-jersey"
  variantId := "v1"
  name := "Curry Jersey"
  variant := "M"
  price := 95
  quantity := 1
  imageUrl := ""

/-- Example `addItem` argument: a Giannis Bucks jersey line. -/
def giannisItem : NewItem where
  productId := "giannis-bucks-jersey"
  variantId := "v2"
  name := "Giannis Jersey"
  variant := "L"
  price := 120
  quantity := 2
  imageUrl := ""

/-- The exact content of `pendingOperations` determined by the execution
position: the running operation's id between its `pendingOperations.add` (in
its synchronous prefix) and its `pendingOperations.delete` (in its `finally`,
before the resync fetch), and nothing otherwise. -/
def expectedPending : Option Running → List String
  | none => []
  | some r =>
      match r.phase with
      | WorkPhase.awaitingServer => [r.opId]
      | WorkPhase.awaitingFetch _ => []

/-- Cart system invariant: `pendingOperations` holds exactly the id dictated
by the running operation's phase; the drain flag matches the presence of a
running operation; and an idle queue is empty. -/
def SysInv (s : SysState) : Prop :=
  s.pending = expectedPending s.running ∧
  s.running.isSome = s.isProcessing ∧
  (s.isProcessing = false → s.queue = [])

lemma setAdd_nil (x : String) : setAdd [] x = [x] := by
  simp [setAdd]

lemma setDelete_singleton (x : String) : setDelete [x] x = [] := by
  simp [setDelete]

lemma sysInv_startNextS (s : SysState) (hpend : s.pending = [])
    (hflag : s.queue ≠ [] → s.isProcessing = true) : SysInv (startNextS s) := by
  cases hq : s.queue with
  | nil =>
    refine ⟨?_, ?_, ?_⟩
    · simp [startNextS, hq, expectedPending, hpend]
    · simp [startNextS, hq]
    · intro _
      simp [startNextS, hq]
  | cons op rest =>
    have hP : s.isProcessing = true := hflag (by rw [hq]; simp)
    refine ⟨?_, ?_, ?_⟩
    · simp [startNextS, hq, beginOp, expectedPending, hpend, setAdd_nil]
    · simp [startNextS, hq, beginOp, hP]
    · intro hc
      simp [startNextS, hq, beginOp, hP] at hc

lemma sysInv_enqueueCart (opId : String) (k : OpKind) (session : Option String)
    (server : Except String Unit) (fetch : FetchResult) (s : SysState)
    (hI : SysInv s) : SysInv (enqueueCart opId k session server fetch s) := by
  obtain ⟨hpend, hflag, hidle⟩ := hI
  cases hP : s.isProcessing with
  | true =>
    rw [enqueueCart, if_pos hP]
    exact ⟨hpend, hflag, by simp [hP]⟩
  | false =>
    have hQ : s.queue = [] := hidle hP
    have hrun : s.running = none := by
      cases hr : s.running with
      | none => rfl
      | some r => rw [hr] at hflag; rw [hP] at hflag; simp at hflag
    have hpend0 : s.pending = [] := by rw [hpend, hrun]; rfl
    rw [enqueueCart, if_neg (by rw [hP]; simp)]
    refine sysInv_startNextS _ hpend0 (fun _ => rfl)

lemma sysInv_callMutation (k : OpKind) (session : Option String)
    (server : Except String Unit) (fetch : FetchResult) (s : SysState)
    (hI : SysInv s) : SysInv (callMutation k session server fetch s) := by
  cases k with
  | add n => exact sysInv_enqueueCart _ _ _ _ _ _ hI
  | clearCart => exact sysInv_enqueueCart _ _ _ _ _ _ hI
  | remove itemId =>
    cases hfind : s.items.find? (fun i => i.id == itemId) with
    | none => simpa [callMutation, hfind] using hI
    | some it =>
      rw [callMutation]
      rw [hfind]
      exact sysInv_enqueueCart _ _ _ _ _ _ hI
  | update itemId q =>
    cases hfind : s.items.find? (fun i => i.id == itemId) with
    | none => simpa [callMutation, hfind] using hI
    | some it =>
      rw [callMutation]
      rw [hfind]
      exact sysInv_enqueueCart _ _ _ _ _ _ hI

lemma sysInv_serverRespond (s : SysState) (hI : SysInv s) :
    SysInv (serverRespond s) := by
  obtain ⟨hpend, hflag, hidle⟩ := hI
  cases hr : s.running with
  | none => simpa [serverRespond, hr] using ⟨hpend, hflag, hidle⟩
  | some r =>
    obtain ⟨opId, kind, sess, server, fetch, backup, phase⟩ := r
    cases phase with
    | awaitingFetch outcome =>
      simpa [serverRespond, hr] using ⟨hpend, hflag, hidle⟩
    | awaitingServer =>
      have hpend1 : s.pending = [opId] := by
        rw [hpend, hr]; rfl
      have hP : s.isProcessing = true := by rw [← hflag, hr]; rfl
      cases sess with
      | none =>
        rw [serverRespond, hr]
        simp only [settleAndContinue]
        refine sysInv_startNextS _ ?_ ?_
        · simp [hpend1, setDelete_singleton]
        · intro _; exact hP
      | some sid =>
        rw [serverRespond, hr]
        simp only [hpend1, setDelete_singleton, List.length_nil, gt_iff_lt,
          Nat.lt_irrefl, if_false]
        refine ⟨?_, ?_, ?_⟩
        · simp [expectedPending]
        · simpa using hP
        · intro hc; rw [hP] at hc; simp at hc

lemma sysInv_fetchRespond (s : SysState) (hI : SysInv s) :
    SysInv (fetchRespond s) := by
  obtain ⟨hpend, hflag, hidle⟩ := hI
  cases hr : s.running with
  | none => simpa [fetchRespond, hr] using ⟨hpend, hflag, hidle⟩
  | some r =>
    obtain ⟨opId, kind, sess, server, fetch, backup, phase⟩ := r
    cases phase with
    | awaitingServer =>
      simpa [fetchRespond, hr] using ⟨hpend, hflag, hidle⟩
    | awaitingFetch outcome =>
      have hpend0 : s.pending = [] := by rw [hpend, hr]; rfl
      have hP : s.isProcessing = true := by rw [← hflag, hr]; rfl
      rw [fetchRespond, hr]
      simp only [settleAndContinue]
      refine sysInv_startNextS _ (by simp [hpend0]) ?_
      intro _; exact hP

lemma sysInv_queueClearS (s : SysState) (hI : SysInv s) :
    SysInv (queueClearS s) := by
  obtain ⟨hpend, hflag, hidle⟩ := hI
  exact ⟨hpend, hflag, fun _ => rfl⟩

lemma sysInv_stepS (s : SysState) (a : CAction) (hI : SysInv s) :
    SysInv (stepS s a) := by
  cases a with
  | call k session server fetch => exact sysInv_callMutation _ _ _ _ _ hI
  | serverResp => exact sysInv_serverRespond _ hI
  | fetchResp => exact sysInv_fetchRespond _ hI
  | clearQ => exact sysInv_queueClearS _ hI

lemma sysInv_initS : SysInv initS := by
  refine ⟨rfl, rfl, fun _ => rfl⟩

lemma sysInv_foldl (s : SysState) (as : List CAction) (hI : SysInv s) :
    SysInv (as.foldl stepS s) := by
  induction as generalizing s with
  | nil => exact hI
  | cons a rest ih => exact ih _ (sysInv_stepS s a hI)

/-- Every reachable state of the cart system satisfies the invariant. -/
lemma sysInv_runS (as : List CAction) : SysInv (runS as) :=
  sysInv_foldl _ _ sysInv_initS

lemma serverRespond_rollback (k : OpKind) (session : Option String) (e : String)
    (fetch : FetchResult) (s : SysState) (hI : SysInv s)
    (hP : s.isProcessing = false) :
    (serverRespond (callMutation k session (Except.error e) fetch s)).items
      = s.items := by
  obtain ⟨hpend, hflag, hidle⟩ := hI
  have hQ : s.queue = [] := hidle hP
  have hrun : s.running = none := by
    cases hr : s.running with
    | none => rfl
    | some r => rw [hr] at hflag; rw [hP] at hflag; simp at hflag
  have hpend0 : s.pending = [] := by rw [hpend, hrun]; rfl
  have hgen : ∀ opId : String,
      (serverRespond (enqueueCart opId k session (Except.error e) fetch s)).items
        = s.items := by
    intro opId
    rw [enqueueCart, if_neg (by rw [hP]; simp)]
    cases session with
    | none =>
      simp [hQ, startNextS, beginOp, serverRespond, settleAndContinue, hpend0,
        setAdd, setDelete_singleton]
    | some sid =>
      simp [hQ, startNextS, beginOp, serverRespond, settleAndContinue, hpend0,
        setAdd, setDelete_singleton]
  cases k with
  | add n =>
    rw [callMutation]
    exact hgen _
  | clearCart =>
    rw [callMutation]
    exact hgen _
  | remove itemId =>
    cases hfind : s.items.find? (fun i => i.id == itemId) with
    | none =>
      rw [callMutation]
      rw [hfind, serverRespond, hrun]
    | some it =>
      rw [callMutation]
      rw [hfind]
      exact hgen _
  | update itemId q =>
    cases hfind : s.items.find? (fun i => i.id == itemId) with
    | none =>
      rw [callMutation]
      rw [hfind, serverRespond, hrun]
    | some it =>
      rw [callMutation]
      rw [hfind]
      exact hgen _

/-- C2: when the server call of a mutating operation rejects, the rollback
restores `items` to exactly the snapshot captured at the start of that same
operation (a full overwrite discarding that operation's optimistic change),
the error is rethrown to the caller, and when the operation runs after an
earlier operation it restores the earlier operation's resulting state — never
some older or newer snapshot.  The last conjunct states the same fact on the
system machine, whose `backup` field is captured by the work's synchronous
prefix: a failing mutation issued on an idle store leaves `items` exactly as
they were when the operation began, for every operation kind. -/
theorem rollback_restores_own_backup (kind : OpKind) (sessionId : Option String)
    (e : String) (fetch : FetchResult) (items0 : List CartItem) :
    (runMutation kind sessionId (Except.error e) fetch items0).afterSettle
      = items0 ∧
    (runMutation kind sessionId (Except.error e) fetch items0).result
      = Except.error e ∧
    (∀ (k1 : OpKind) (s1 : Option String) (sv1 : Except String Unit)
      (f1 : FetchResult),
      (runMutation kind sessionId (Except.error e) fetch
          ((runMutation k1 s1 sv1 f1 items0).final)).afterSettle
        = (runMutation k1 s1 sv1 f1 items0).final) ∧
    (∀ (s : SysState) (session2 : Option String), SysInv s →
      s.isProcessing = false →
      (serverRespond (callMutation kind session2 (Except.error e) fetch s)).items
        = s.items) := by
  refine ⟨rfl, rfl, fun _ _ _ _ => rfl, ?_⟩
  intro s session2 hI hP
  exact serverRespond_rollback kind session2 e fetch s hI hP

/-- C2 witness: a failing LeBron-jersey add on the empty cart settles back to
the empty cart, and the same failing add issued on a store already holding a
Curry jersey (deposited by a previous, successful operation) settles back to
exactly that store's items. -/
theorem rollback_restores_own_backup_witness :
    (runMutation (OpKind.add lebronItem) (some "sess") (Except.error "boom")
        (Except.ok none) []).afterSettle = [] ∧
    (runS [CAction.call (OpKind.add curryItem) none (Except.ok ())
        (Except.ok none), CAction.serverResp]).isProcessing = false ∧
    (serverRespond (callMutation (OpKind.add lebronItem) none
        (Except.error "boom") (Except.ok none)
        (runS [CAction.call (OpKind.add curryItem) none (Except.ok ())
          (Except.ok none), CAction.serverResp]))).items
      = (runS [CAction.call (OpKind.add curryItem) none (Except.ok ())
          (Except.ok none), CAction.serverResp]).items := by
  refine ⟨(rollback_restores_own_backup (OpKind.add lebronItem) (some "sess")
      "boom" (Except.ok none) []).1, rfl, ?_⟩
  exact (rollback_restores_own_backup (OpKind.add lebronItem) none "boom"
    (Except.ok none) []).2.2.2 _ none (sysInv_runS _) rfl

/-- Quantity of the first line matching a (productId, variantId) pair, `0`
when absent. -/
def qtyOfPair (items : List CartItem) (pid vid : String) : Int :=
  ((items.find? (pairMatch pid vid)).map CartItem.quantity).getD 0

lemma pairMatch_quantity_update (pid vid : String) (x : CartItem) (q : Int) :
    pairMatch pid vid { x with quantity := q } = pairMatch pid vid x := rfl

lemma qtyOfPair_bump (pid vid : String) (d : Int) (items : List CartItem)
    (h : items.any (pairMatch pid vid) = true) :
    qtyOfPair (bumpFirst (pairMatch pid vid)
        (fun i => { i with quantity := i.quantity + d }) items) pid vid
      = qtyOfPair items pid vid + d := by
  induction items with
  | nil => simp at h
  | cons x xs ih =>
    cases hx : pairMatch pid vid x with
    | true =>
      have hfx : pairMatch pid vid { x with quantity := x.quantity + d } = true := by
        rw [pairMatch_quantity_update]; exact hx
      rw [bumpFirst, if_pos hx, qtyOfPair, List.find?_cons_of_pos _ hfx,
        qtyOfPair, List.find?_cons_of_pos _ hx]
      rfl
    | false =>
      have hxs : xs.any (pairMatch pid vid) = true := by
        rw [List.any_cons, hx] at h
        simpa using h
      rw [bumpFirst, if_neg (by rw [hx]; simp), qtyOfPair,
        List.find?_cons_of_neg _ (by rw [hx]; simp), qtyOfPair,
        List.find?_cons_of_neg _ (by rw [hx]; simp)]
      exact ih hxs

lemma find?_eq_none_of_any_eq_false {p : CartItem → Bool} {items : List CartItem}
    (h : items.any p = false) : items.find? p = none := by
  rw [List.find?_eq_none]
  intro x hx hpx
  have hany : items.any p = true := List.any_eq_true.mpr ⟨x, hx, hpx⟩
  rw [h] at hany
  exact absurd hany (by simp)

lemma find?_append_none {p : CartItem → Bool} {l1 l2 : List CartItem}
    (h : l1.find? p = none) : (l1 ++ l2).find? p = l2.find? p := by
  induction l1 with
  | nil => simp
  | cons x xs ih =>
    cases hx : p x with
    | true => rw [List.find?_cons_of_pos _ hx] at h; exact absurd h (by simp)
    | false =>
      rw [List.find?_cons_of_neg _ (by rw [hx]; simp)] at h
      rw [List.cons_append, List.find?_cons_of_neg _ (by rw [hx]; simp)]
      exact ih h

lemma pairMatch_mkCartItem (n : NewItem) :
    pairMatch n.productId n.variantId (mkCartItem n) = true := by
  simp [pairMatch, mkCartItem]

lemma qtyOfPair_applyAdd (items : List CartItem) (n : NewItem) :
    qtyOfPair (applyAdd items n) n.productId n.variantId
      = qtyOfPair items n.productId n.variantId + n.quantity := by
  cases h : items.any (pairMatch n.productId n.variantId) with
  | true =>
    rw [applyAdd, if_pos h]
    exact qtyOfPair_bump _ _ _ _ h
  | false =>
    rw [applyAdd, if_neg (by rw [h]; simp)]
    have hnone := find?_eq_none_of_any_eq_false h
    rw [qtyOfPair, find?_append_none hnone,
      List.find?_cons_of_pos _ (pairMatch_mkCartItem n), qtyOfPair, hnone]
    simp [mkCartItem]

/-- C5 counterexample: when the queue is already draining a previous
operation, the optimistic update of a further `addItem` call is *not* visible
immediately after the call returns: with a LeBron jersey add still executing
(its server call pending), a Curry jersey add returns with the Curry line
still absent from `items` — refuting the claim for calls made while the queue
is busy. -/
theorem addItem_visibility_counterexample :
    (callMutation (OpKind.add lebronItem) (some "sess") (Except.ok ())
        (Except.ok none) initS).isProcessing = true ∧
    qtyOfPair (callMutation (OpKind.add curryItem) (some "sess") (Except.ok ())
        (Except.ok none)
        (callMutation (OpKind.add lebronItem) (some "sess") (Except.ok ())
          (Except.ok none) initS)).items
      "curry-warriors-jersey" "v1" = 0 := by
  exact ⟨rfl, rfl⟩

/-- C5 (amended): provided the operation queue is idle at the time of the
call (the spec's single-call scenario), `addItem`'s optimistic update is
applied synchronously during the call, before its background server call
resolves: immediately after `addItem` returns, `items` equals the optimistic
`applyAdd` of the previous items — the quantity of an existing
(productId, variantId) pair has been incremented by the added quantity, and a
previously absent pair has been appended as a new line.  When another
operation is still draining, the update instead becomes visible when the
operation is dequeued (still before its own server call resolves). -/
theorem addItem_optimistic_visibility (s : SysState) (n : NewItem)
    (session : Option String) (server : Except String Unit)
    (fetch : FetchResult) (hI : SysInv s) (hP : s.isProcessing = false) :
    (callMutation (OpKind.add n) session server fetch s).items
      = applyAdd s.items n ∧
    qtyOfPair (callMutation (OpKind.add n) session server fetch s).items
        n.productId n.variantId
      = qtyOfPair s.items n.productId n.variantId + n.quantity ∧
    (s.items.any (pairMatch n.productId n.variantId) = false →
      (callMutation (OpKind.add n) session server fetch s).items
        = s.items ++ [mkCartItem n]) := by
  obtain ⟨hpend, hflag, hidle⟩ := hI
  have hQ : s.queue = [] := hidle hP
  have hitems : (callMutation (OpKind.add n) session server fetch s).items
      = applyAdd s.items n := by
    rw [callMutation, enqueueCart, if_neg (by rw [hP]; simp)]
    simp [startNextS, hQ, beginOp, applyKind]
  refine ⟨hitems, ?_, ?_⟩
  · rw [hitems]
    exact qtyOfPair_applyAdd s.items n
  · intro habs
    rw [hitems, applyAdd, if_neg (by rw [habs]; simp)]

/-- C5 witness: adding a Giannis jersey to the fresh (idle, empty) store
makes the new line synchronously visible in `items`. -/
theorem addItem_optimistic_visibility_witness :
    initS.isProcessing = false ∧
    (callMutation (OpKind.add giannisItem) (some "sess") (Except.ok ())
        (Except.ok none) initS).items = [mkCartItem giannisItem] := by
  refine ⟨rfl, ?_⟩
  have h := (addItem_optimistic_visibility initS giannisItem (some "sess")
    (Except.ok ()) (Except.ok none) sysInv_initS rfl).2.2 rfl
  simpa using h

lemma callUpdate_absent (itemId : String) (q : Int) (session : Option String)
    (server : Except String Unit) (fetch : FetchResult) (s : SysState)
    (hfind : s.items.find? (fun i => i.id == itemId) = none) :
    callMutation (OpKind.update itemId q) session server fetch s = s := by
  simp [callMutation, hfind]

lemma callRemove_absent (itemId : String) (session : Option String)
    (server : Except String Unit) (fetch : FetchResult) (s : SysState)
    (hfind : s.items.find? (fun i => i.id == itemId) = none) :
    callMutation (OpKind.remove itemId) session server fetch s = s := by
  simp [callMutation, hfind]

lemma find?_filter_id_ne (items : List CartItem) (itemId : String) :
    (items.filter (fun i => !(i.id == itemId))).find? (fun i => i.id == itemId)
      = none := by
  rw [List.find?_eq_none]
  intro x hx
  rw [List.mem_filter] at hx
  simpa using hx.2

/-- C9: with a session-less run for clarity (the `finally` resync is skipped
when no session id is available), `updateQuantity` with quantity ≤ 0 on a
present item removes the matching line from `items` (the filter of the
optimistic update, kept on server success); afterwards the line's id is
absent, and any subsequent `updateQuantity` or `removeItem` call with that id
returns the state completely unchanged — nothing is enqueued, no server call
is issued, `items` is untouched, and no error is raised (the early `return`
of the absent-item guard). -/
theorem update_zero_removes_then_noop (s : SysState) (itemId : String)
    (q : Int) (it : CartItem) (hI : SysInv s) (hP : s.isProcessing = false)
    (hq : q ≤ 0) (hfind : s.items.find? (fun i => i.id == itemId) = some it) :
    (serverRespond (callMutation (OpKind.update itemId q) none (Except.ok ())
        (Except.ok none) s)).items
      = s.items.filter (fun i => !(i.id == itemId)) ∧
    (∀ (q2 : Int) (session2 : Option String) (server2 : Except String Unit)
        (fetch2 : FetchResult),
      callMutation (OpKind.update itemId q2) session2 server2 fetch2
          (serverRespond (callMutation (OpKind.update itemId q) none
            (Except.ok ()) (Except.ok none) s))
        = serverRespond (callMutation (OpKind.update itemId q) none
            (Except.ok ()) (Except.ok none) s)) ∧
    (∀ (session2 : Option String) (server2 : Except String Unit)
        (fetch2 : FetchResult),
      callMutation (OpKind.remove itemId) session2 server2 fetch2
          (serverRespond (callMutation (OpKind.update itemId q) none
            (Except.ok ()) (Except.ok none) s))
        = serverRespond (callMutation (OpKind.update itemId q) none
          (Except.ok ()) (Except.ok none) s)) := by
  obtain ⟨hpend, hflag, hidle⟩ := hI
  have hQ : s.queue = [] := hidle hP
  have hrun : s.running = none := by
    cases hr : s.running with
    | none => rfl
    | some r => rw [hr] at hflag; rw [hP] at hflag; simp at hflag
  have hpend0 : s.pending = [] := by rw [hpend, hrun]; rfl
  have hcall : callMutation (OpKind.update itemId q) none (Except.ok ())
      (Except.ok none) s
      = enqueueCart ("update-" ++ it.productId ++ "-" ++ it.variantId ++ "-"
          ++ toString s.now) (OpKind.update itemId q) none (Except.ok ())
          (Except.ok none) s := by
    simp [callMutation, hfind]
  have hs2 : serverRespond (callMutation (OpKind.update itemId q) none
      (Except.ok ()) (Except.ok none) s)
      = { s with
          items := s.items.filter (fun i => !(i.id == itemId))
          pending := []
          queue := []
          isProcessing := false
          running := none
          calls := s.calls ++ [{ tool := "set_cart_quantity", session := none }]
          settled := s.settled ++ [("update-" ++ it.productId ++ "-"
            ++ it.variantId ++ "-" ++ toString s.now, Except.ok ())]
          now := s.now + 1 } := by
    rw [hcall, enqueueCart, if_neg (by rw [hP]; simp)]
    simp [hQ, startNextS, beginOp, applyKind, applyUpdate, if_pos hq, hpend0,
      setAdd, serverRespond, setDelete_singleton, settleAndContinue, toolName]
  refine ⟨by rw [hs2], ?_, ?_⟩
  · intro q2 session2 server2 fetch2
    rw [hs2]
    exact callUpdate_absent itemId q2 session2 server2 fetch2 _
      (find?_filter_id_ne s.items itemId)
  · intro session2 server2 fetch2
    rw [hs2]
    exact callRemove_absent itemId session2 server2 fetch2 _
      (find?_filter_id_ne s.items itemId)

/-- C9 witness: add a LeBron jersey (session-less, server success), then set
its quantity to 0 — the line disappears — and a further `updateQuantity` and
`removeItem` on the same id are complete no-ops. -/
theorem update_zero_removes_then_noop_witness :
    ((runS [CAction.call (OpKind.add lebronItem) none (Except.ok ())
        (Except.ok none), CAction.serverResp]).items.find?
        (fun i => i.id == "cart-lebron-lakers-jersey-v1")
      = some (mkCartItem lebronItem)) ∧
    (serverRespond (callMutation
        (OpKind.update "cart-lebron-lakers-jersey-v1" 0) none (Except.ok ())
        (Except.ok none)
        (runS [CAction.call (OpKind.add lebronItem) none (Except.ok ())
          (Except.ok none), CAction.serverResp]))).items = [] := by
  refine ⟨rfl, ?_⟩
  have h := (update_zero_removes_then_noop
    (runS [CAction.call (OpKind.add lebronItem) none (Except.ok ())
      (Except.ok none), CAction.serverResp])
    "cart-lebron-lakers-jersey-v1" 0 (mkCartItem lebronItem)
    (sysInv_runS _) rfl (by decide) rfl).1
  rw [h]
  rfl

/-- C10: `pendingOperations` never holds more than one operation id: an id is
added only in a queued work function's synchronous prefix and deleted in that
same work's `finally` before anything else runs, and the queue runs at most
one work at a time.  Consequently, when the awaited mutation call of the
running operation settles, the id deleted in its `finally` leaves the set
empty, the pending-mutation guard inside the post-operation `syncCart` call
passes, and (the session id being present) the resync fetch is issued — after
every settled mutation, not only after bursts. -/
theorem pending_at_most_one (as : List CAction) (r : Running) (sid : String)
    (hr : (runS as).running = some r) (hph : r.phase = WorkPhase.awaitingServer)
    (hs : r.session = some sid) :
    (∀ bs : List CAction, (runS bs).pending.length ≤ 1) ∧
    (serverRespond (runS as)).pending = [] ∧
    (serverRespond (runS as)).calls
      = (runS as).calls ++ [{ tool := "get_cart_state", session := some sid }] := by
  obtain ⟨hpend, hflag, hidle⟩ := sysInv_runS as
  have hlen : ∀ bs : List CAction, (runS bs).pending.length ≤ 1 := by
    intro bs
    obtain ⟨hpend2, _, _⟩ := sysInv_runS bs
    rw [hpend2]
    cases hrb : (runS bs).running with
    | none => simp [expectedPending]
    | some rb =>
      obtain ⟨opId, kind, sess, server, fetch, backup, phase⟩ := rb
      cases phase <;> simp [expectedPending]
  obtain ⟨opId, kind, sess, server, fetch, backup, phase⟩ := r
  cases hph
  cases hs
  have hpend1 : (runS as).pending = [opId] := by rw [hpend, hr]; rfl
  rw [serverRespond, hr]
  simp only [hpend1, setDelete_singleton, List.length_nil, gt_iff_lt,
    Nat.lt_irrefl, if_false]
  exact ⟨hlen, trivial, trivial⟩

/-- C10 witness: a `clearCart` call with a session id is mid-flight (awaiting
its mutation server call); when that call settles, the pending set is empty
and the resync fetch is issued. -/
theorem pending_at_most_one_witness :
    (serverRespond (runS [CAction.call OpKind.clearCart (some "sess")
        (Except.ok ()) (Except.ok none)])).pending = [] ∧
    (serverRespond (runS [CAction.call OpKind.clearCart (some "sess")
        (Except.ok ()) (Except.ok none)])).calls
      = (runS [CAction.call OpKind.clearCart (some "sess") (Except.ok ())
          (Except.ok none)]).calls
        ++ [{ tool := "get_cart_state", session := some "sess" }] := by
  have h := pending_at_most_one
    [CAction.call OpKind.clearCart (some "sess") (Except.ok ()) (Except.ok none)]
    { opId := "clear-0", kind := OpKind.clearCart, session := some "sess",
      server := Except.ok (), fetch := Except.ok none, backup := [],
      phase := WorkPhase.awaitingServer }
    "sess" rfl rfl rfl
  exact ⟨h.2.1, h.2.2⟩

end CartStore
